import Mathlib

/-
Verification development for the judge0 bridge core:
session and file storage (in-memory and Redis backends), the execute
path-rewrite step, the response translator and the output-archive filter.
All definitions are shallow embeddings of the TypeScript source in
src/storage.ts, src/utils.ts and the Judge0 client module.

Library primitives of the Node runtime are modelled as follows:
  - Buffer byte payloads become List Nat with the bytes below 256;
  - Buffer base64 conversion becomes an explicit RFC 4648 codec below
    (b64Encode and b64Decode), so that the Redis backend which stores
    payloads base64-encoded is modelled byte for byte;
  - JSON stringify and parse of the flat file-metadata record round-trip
    in Node, so the Redis files hash stores the metadata record directly;
  - Date timestamps become Nat instants, id generation (nanoid) becomes
    an explicitly supplied id or generator argument;
  - base64 text decoding of Judge0 response fields (decodeBase64 over
    UTF-8 strings) is an arbitrary function parameter named dec, so every
    theorem about the translator holds for the real decoder.
-/

-- ============================================================
-- Association lists: the model of JS Map and of Redis key spaces
-- ============================================================

def alGet {κ β : Type} [DecidableEq κ] : List (κ × β) → κ → Option β
  | [], _ => none
  | (k, v) :: rest, key => if k = key then some v else alGet rest key

def alSet {κ β : Type} [DecidableEq κ] : List (κ × β) → κ → β → List (κ × β)
  | [], key, v => [(key, v)]
  | (k, w) :: rest, key, v =>
    if k = key then (key, v) :: rest else (k, w) :: alSet rest key v

def alErase {κ β : Type} [DecidableEq κ] : List (κ × β) → κ → List (κ × β)
  | [], _ => []
  | (k, w) :: rest, key => if k = key then rest else (k, w) :: alErase rest key

theorem alGet_alSet_self {κ β : Type} [DecidableEq κ] (m : List (κ × β)) (k : κ) (v : β) :
    alGet (alSet m k v) k = some v := by
  induction m with
  | nil => simp [alSet, alGet]
  | cons p rest ih =>
    by_cases h : p.1 = k
    · simp [alSet, alGet, h]
    · simp [alSet, alGet, h, ih]

theorem alGet_alSet_ne {κ β : Type} [DecidableEq κ] (m : List (κ × β)) (k k2 : κ) (v : β)
    (h : k2 ≠ k) : alGet (alSet m k v) k2 = alGet m k2 := by
  have hk : ¬(k = k2) := fun he => h he.symm
  induction m with
  | nil => simp [alSet, alGet, hk]
  | cons p rest ih =>
    rcases p with ⟨pk, pv⟩
    by_cases hp : pk = k
    · subst hp
      simp [alSet, alGet, hk]
    · by_cases hq : pk = k2
      · simp [alSet, alGet, hp, hq, h]
      · simp [alSet, alGet, hp, hq, ih]

-- ============================================================
-- Base64 codec over byte lists (RFC 4648, as Node Buffer implements)
-- ============================================================

def b64Table : List Char :=
  ['A', 'B', 'C', 'D', 'E', 'F', 'G', 'H', 'I', 'J', 'K', 'L', 'M',
   'N', 'O', 'P', 'Q', 'R', 'S', 'T', 'U', 'V', 'W', 'X', 'Y', 'Z',
   'a', 'b', 'c', 'd', 'e', 'f', 'g', 'h', 'i', 'j', 'k', 'l', 'm',
   'n', 'o', 'p', 'q', 'r', 's', 't', 'u', 'v', 'w', 'x', 'y', 'z',
   '0', '1', '2', '3', '4', '5', '6', '7', '8', '9', '+', '/']

def b64Char (n : Nat) : Char := b64Table.getD n '?'

def b64ValGo (c : Char) : List Char → Nat
  | [] => 0
  | d :: ds => if d = c then 0 else 1 + b64ValGo c ds

def b64Val (c : Char) : Nat := b64ValGo c b64Table

def b64Encode : List Nat → List Char
  | [] => []
  | [b0] => [b64Char (b0 / 4), b64Char (b0 % 4 * 16), '=', '=']
  | [b0, b1] =>
    [b64Char (b0 / 4), b64Char (b0 % 4 * 16 + b1 / 16), b64Char (b1 % 16 * 4), '=']
  | b0 :: b1 :: b2 :: rest =>
    b64Char (b0 / 4) :: b64Char (b0 % 4 * 16 + b1 / 16) ::
    b64Char (b1 % 16 * 4 + b2 / 64) :: b64Char (b2 % 64) :: b64Encode rest

def b64Decode : List Char → List Nat
  | c0 :: c1 :: c2 :: c3 :: rest =>
    if c2 = '=' then [b64Val c0 * 4 + b64Val c1 / 16]
    else if c3 = '=' then
      [b64Val c0 * 4 + b64Val c1 / 16, b64Val c1 % 16 * 16 + b64Val c2 / 4]
    else
      (b64Val c0 * 4 + b64Val c1 / 16) ::
      (b64Val c1 % 16 * 16 + b64Val c2 / 4) ::
      (b64Val c2 % 4 * 64 + b64Val c3) :: b64Decode rest
  | _ => []

theorem b64Char_round : ∀ i : Fin 64, b64Val (b64Char i.val) = i.val := by decide

theorem b64Char_ne_pad : ∀ i : Fin 64, b64Char i.val ≠ '=' := by decide

theorem b64_round (bs : List Nat) (h : ∀ b ∈ bs, b < 256) :
    b64Decode (b64Encode bs) = bs :=
  match bs, h with
  | [], _ => rfl
  | [b0], h => by
    have hb0 : b0 < 256 := h b0 (by simp)
    have h1 : b64Val (b64Char (b0 / 4)) = b0 / 4 := b64Char_round ⟨b0 / 4, by omega⟩
    have h2 : b64Val (b64Char (b0 % 4 * 16)) = b0 % 4 * 16 :=
      b64Char_round ⟨b0 % 4 * 16, by omega⟩
    simp only [b64Encode, b64Decode, if_true, h1, h2, List.cons.injEq, and_true]
    omega
  | [b0, b1], h => by
    have hb0 : b0 < 256 := h b0 (by simp)
    have hb1 : b1 < 256 := h b1 (by simp)
    have h1 : b64Val (b64Char (b0 / 4)) = b0 / 4 := b64Char_round ⟨b0 / 4, by omega⟩
    have h2 : b64Val (b64Char (b0 % 4 * 16 + b1 / 16)) = b0 % 4 * 16 + b1 / 16 :=
      b64Char_round ⟨b0 % 4 * 16 + b1 / 16, by omega⟩
    have h3 : b64Val (b64Char (b1 % 16 * 4)) = b1 % 16 * 4 :=
      b64Char_round ⟨b1 % 16 * 4, by omega⟩
    have hne : (b64Char (b1 % 16 * 4) = '=') = False :=
      eq_false (b64Char_ne_pad ⟨b1 % 16 * 4, by omega⟩)
    simp only [b64Encode, b64Decode, hne, if_false, if_true, h1, h2, h3,
      List.cons.injEq, and_true]
    omega
  | b0 :: b1 :: b2 :: rest, h => by
    have hb0 : b0 < 256 := h b0 (by simp)
    have hb1 : b1 < 256 := h b1 (by simp)
    have hb2 : b2 < 256 := h b2 (by simp)
    have ih := b64_round rest (fun b hb => h b (by simp [hb]))
    have h1 : b64Val (b64Char (b0 / 4)) = b0 / 4 := b64Char_round ⟨b0 / 4, by omega⟩
    have h2 : b64Val (b64Char (b0 % 4 * 16 + b1 / 16)) = b0 % 4 * 16 + b1 / 16 :=
      b64Char_round ⟨b0 % 4 * 16 + b1 / 16, by omega⟩
    have h3 : b64Val (b64Char (b1 % 16 * 4 + b2 / 64)) = b1 % 16 * 4 + b2 / 64 :=
      b64Char_round ⟨b1 % 16 * 4 + b2 / 64, by omega⟩
    have h4 : b64Val (b64Char (b2 % 64)) = b2 % 64 := b64Char_round ⟨b2 % 64, by omega⟩
    have hne3 : (b64Char (b1 % 16 * 4 + b2 / 64) = '=') = False :=
      eq_false (b64Char_ne_pad ⟨b1 % 16 * 4 + b2 / 64, by omega⟩)
    have hne4 : (b64Char (b2 % 64) = '=') = False :=
      eq_false (b64Char_ne_pad ⟨b2 % 64, by omega⟩)
    have henc : b64Encode (b0 :: b1 :: b2 :: rest) =
        b64Char (b0 / 4) :: b64Char (b0 % 4 * 16 + b1 / 16) ::
        b64Char (b1 % 16 * 4 + b2 / 64) :: b64Char (b2 % 64) :: b64Encode rest := by
      rcases rest with _ | ⟨x, xs⟩ <;> rfl
    rw [henc]
    simp only [b64Decode, hne3, hne4, if_false, h1, h2, h3, h4, ih,
      List.cons.injEq, and_true]
    refine ⟨by omega, by omega, by omega⟩

theorem b64Encode_eq_nil_iff (bs : List Nat) : b64Encode bs = [] ↔ bs = [] := by
  rcases bs with _ | ⟨b0, _ | ⟨b1, _ | ⟨b2, rest⟩⟩⟩ <;> simp [b64Encode]

-- ============================================================
-- Path rewrite step of Judge0Client.execute
--
-- Source regexes, applied to the submitted source text in order:
--   code.replace(/(?<!\.)\/mnt\/data\//g, './')
--       .replace(/(?<!\.)\/mnt\/data\b/g, '.')
-- and the occurrence test used for the FYI notice flag:
--   /(?<!\.)\/mnt\/data(\/|(?=\b))/g . test(code)
-- Each is modelled as a left-to-right scanner over the character list.
-- The lookbehind inspects the previous character of the original text,
-- which the scanner threads through as the prev argument; a JS word
-- boundary after the final a of data holds iff the next character is
-- not a word character or the string ends there.
-- ============================================================

def isWordChar (c : Char) : Bool := c.isAlpha || c.isDigit || c = '_'

def notDot : Option Char → Bool
  | some c => c != '.'
  | none => true

def nextIsWord : List Char → Bool
  | [] => false
  | c :: _ => isWordChar c

def leadsWith : List Char → List Char → Bool
  | [], _ => true
  | _ :: _, [] => false
  | p :: ps, c :: cs => p == c && leadsWith ps cs

def mntBare : List Char := ['/', 'm', 'n', 't', '/', 'd', 'a', 't', 'a']

def mntSlash : List Char := mntBare ++ ['/']

def cond1 (prev : Option Char) (l : List Char) : Bool :=
  leadsWith mntSlash l && notDot prev

def cond2 (prev : Option Char) (l : List Char) : Bool :=
  leadsWith mntBare l && notDot prev && !nextIsWord (l.drop 9)

def rew1Go : Nat → Option Char → List Char → List Char
  | _, _, [] => []
  | 0, _, l => l
  | fuel + 1, prev, c :: cs =>
    if cond1 prev (c :: cs) then
      '.' :: '/' :: rew1Go fuel (some '/') (List.drop 10 (c :: cs))
    else c :: rew1Go fuel (some c) cs

def rew2Go : Nat → Option Char → List Char → List Char
  | _, _, [] => []
  | 0, _, l => l
  | fuel + 1, prev, c :: cs =>
    if cond2 prev (c :: cs) then
      '.' :: rew2Go fuel (some 'a') (List.drop 9 (c :: cs))
    else c :: rew2Go fuel (some c) cs

def ptGo : Nat → Option Char → List Char → Bool
  | _, _, [] => false
  | 0, _, _ => false
  | fuel + 1, prev, c :: cs =>
    if cond2 prev (c :: cs) then true
    else ptGo fuel (some c) cs

def rewrite1 (prev : Option Char) (l : List Char) : List Char := rew1Go l.length prev l

def rewrite2 (prev : Option Char) (l : List Char) : List Char := rew2Go l.length prev l

def pathTest (l : List Char) : Bool := ptGo l.length none l

def translateCode (code : String) : String :=
  String.mk (rewrite2 none (rewrite1 none code.toList))

theorem leadsWith_iff (p : List Char) : ∀ l, leadsWith p l = true ↔ ∃ t, l = p ++ t := by
  induction p with
  | nil => intro l; simp [leadsWith]
  | cons x xs ih =>
    intro l
    cases l with
    | nil => simp [leadsWith]
    | cons c cs =>
      simp only [leadsWith, Bool.and_eq_true, beq_iff_eq, ih, List.cons_append,
        List.cons.injEq]
      constructor
      · rintro ⟨hx, t, ht⟩
        exact ⟨t, hx.symm, ht⟩
      · rintro ⟨t, hx, ht⟩
        exact ⟨hx.symm, t, ht⟩

theorem leadsWith_length {p l : List Char} (h : leadsWith p l = true) :
    p.length ≤ l.length := by
  obtain ⟨t, ht⟩ := (leadsWith_iff p l).mp h
  subst ht
  simp

theorem cond1_imp_cond2 (prev : Option Char) (l : List Char) (h : cond1 prev l = true) :
    cond2 prev l = true := by
  simp only [cond1, Bool.and_eq_true] at h
  obtain ⟨hlw, hdot⟩ := h
  obtain ⟨t, ht⟩ := (leadsWith_iff mntSlash l).mp hlw
  subst ht
  have hb : leadsWith mntBare (mntSlash ++ t) = true := by
    apply (leadsWith_iff mntBare _).mpr
    exact ⟨'/' :: t, by simp [mntSlash]⟩
  have hd : List.drop 9 (mntSlash ++ t) = '/' :: t := by
    simp [mntSlash, mntBare, List.drop]
  simp [cond2, hb, hdot, hd, nextIsWord, isWordChar]

theorem cond1_length {prev : Option Char} {l : List Char} (h : cond1 prev l = true) :
    10 ≤ l.length := by
  simp only [cond1, Bool.and_eq_true] at h
  have := leadsWith_length h.1
  simpa [mntSlash, mntBare] using this

theorem cond2_length {prev : Option Char} {l : List Char} (h : cond2 prev l = true) :
    9 ≤ l.length := by
  simp only [cond2, Bool.and_eq_true] at h
  have := leadsWith_length h.1.1
  simpa [mntBare] using this

theorem ptGo_false_rew1 : ∀ (fuel : Nat) (prev : Option Char) (l : List Char),
    l.length ≤ fuel → ptGo fuel prev l = false → rew1Go fuel prev l = l := by
  intro fuel
  induction fuel with
  | zero =>
    intro prev l hlen _
    cases l with
    | nil => rfl
    | cons c cs => simp at hlen
  | succ fuel ih =>
    intro prev l hlen hpt
    cases l with
    | nil => rfl
    | cons c cs =>
      simp only [ptGo] at hpt
      by_cases hc2 : cond2 prev (c :: cs) = true
      · simp [hc2] at hpt
      · have hc1 : cond1 prev (c :: cs) = false := by
          by_contra hne
          exact hc2 (cond1_imp_cond2 prev (c :: cs) (by simpa using hne))
        simp only [rew1Go, hc1, Bool.false_eq_true, if_false]
        simp only [hc2, Bool.false_eq_true, if_false] at hpt
        have : cs.length ≤ fuel := by simp only [List.length_cons] at hlen; omega
        rw [ih (some c) cs this hpt]

theorem ptGo_false_rew2 : ∀ (fuel : Nat) (prev : Option Char) (l : List Char),
    l.length ≤ fuel → ptGo fuel prev l = false → rew2Go fuel prev l = l := by
  intro fuel
  induction fuel with
  | zero =>
    intro prev l hlen _
    cases l with
    | nil => rfl
    | cons c cs => simp at hlen
  | succ fuel ih =>
    intro prev l hlen hpt
    cases l with
    | nil => rfl
    | cons c cs =>
      simp only [ptGo] at hpt
      by_cases hc2 : cond2 prev (c :: cs) = true
      · simp [hc2] at hpt
      · simp only [rew2Go, hc2, Bool.false_eq_true, if_false]
        simp only [hc2, Bool.false_eq_true, if_false] at hpt
        have : cs.length ≤ fuel := by simp only [List.length_cons] at hlen; omega
        rw [ih (some c) cs this hpt]

theorem rew2Go_length : ∀ (fuel : Nat) (prev : Option Char) (l : List Char),
    (rew2Go fuel prev l).length ≤ l.length := by
  intro fuel
  induction fuel with
  | zero =>
    intro prev l
    cases l with
    | nil => simp [rew2Go]
    | cons c cs => simp [rew2Go]
  | succ fuel ih =>
    intro prev l
    cases l with
    | nil => simp [rew2Go]
    | cons c cs =>
      by_cases hc2 : cond2 prev (c :: cs) = true
      · have h9 := cond2_length hc2
        simp only [rew2Go, hc2, if_true]
        have := ih (some 'a') (List.drop 9 (c :: cs))
        simp only [List.length_cons, List.length_drop] at *
        omega
      · simp only [rew2Go, hc2, Bool.false_eq_true, if_false]
        have := ih (some c) cs
        simp only [List.length_cons]
        omega

theorem rew1Go_length : ∀ (fuel : Nat) (prev : Option Char) (l : List Char),
    (rew1Go fuel prev l).length ≤ l.length := by
  intro fuel
  induction fuel with
  | zero =>
    intro prev l
    cases l with
    | nil => simp [rew1Go]
    | cons c cs => simp [rew1Go]
  | succ fuel ih =>
    intro prev l
    cases l with
    | nil => simp [rew1Go]
    | cons c cs =>
      by_cases hc1 : cond1 prev (c :: cs) = true
      · have h10 := cond1_length hc1
        simp only [rew1Go, hc1, if_true]
        have := ih (some '/') (List.drop 10 (c :: cs))
        simp only [List.length_cons, List.length_drop] at *
        omega
      · simp only [rew1Go, hc1, Bool.false_eq_true, if_false]
        have := ih (some c) cs
        simp only [List.length_cons]
        omega

theorem ptGo_true_rew2_lt : ∀ (fuel : Nat) (prev : Option Char) (l : List Char),
    l.length ≤ fuel → ptGo fuel prev l = true →
    (rew2Go fuel prev l).length < l.length := by
  intro fuel
  induction fuel with
  | zero =>
    intro prev l hlen hpt
    cases l with
    | nil => simp [ptGo] at hpt
    | cons c cs => simp [ptGo] at hpt
  | succ fuel ih =>
    intro prev l hlen hpt
    cases l with
    | nil => simp [ptGo] at hpt
    | cons c cs =>
      by_cases hc2 : cond2 prev (c :: cs) = true
      · have h9 := cond2_length hc2
        simp only [rew2Go, hc2, if_true]
        have := rew2Go_length fuel (some 'a') (List.drop 9 (c :: cs))
        simp only [List.length_cons, List.length_drop] at *
        omega
      · simp only [ptGo, hc2, Bool.false_eq_true, if_false] at hpt
        simp only [rew2Go, hc2, Bool.false_eq_true, if_false]
        have hlen2 : cs.length ≤ fuel := by simp only [List.length_cons] at hlen; omega
        have := ih (some c) cs hlen2 hpt
        simp only [List.length_cons]
        omega

theorem rew1Go_ne_lt : ∀ (fuel : Nat) (prev : Option Char) (l : List Char),
    rew1Go fuel prev l ≠ l → (rew1Go fuel prev l).length < l.length := by
  intro fuel
  induction fuel with
  | zero =>
    intro prev l hne
    cases l with
    | nil => simp [rew1Go] at hne
    | cons c cs => simp [rew1Go] at hne
  | succ fuel ih =>
    intro prev l hne
    cases l with
    | nil => simp [rew1Go] at hne
    | cons c cs =>
      by_cases hc1 : cond1 prev (c :: cs) = true
      · have h10 := cond1_length hc1
        simp only [rew1Go, hc1, if_true]
        have := rew1Go_length fuel (some '/') (List.drop 10 (c :: cs))
        simp only [List.length_cons, List.length_drop] at *
        omega
      · simp only [rew1Go, hc1, Bool.false_eq_true, if_false] at hne ⊢
        have hne2 : rew1Go fuel (some c) cs ≠ cs := by
          intro he
          exact hne (by rw [he])
        have := ih (some c) cs hne2
        simp only [List.length_cons]
        omega

theorem translate_fix_iff (l : List Char) :
    rewrite2 none (rewrite1 none l) = l ↔ pathTest l = false := by
  constructor
  · intro heq
    by_contra hpt
    have hpt2 : pathTest l = true := by
      cases h : pathTest l
      · exact absurd h hpt
      · rfl
    by_cases h1 : rewrite1 none l = l
    · rw [h1] at heq
      have := ptGo_true_rew2_lt l.length none l (le_refl _) hpt2
      rw [show rew2Go l.length none l = rewrite2 none l from rfl, heq] at this
      exact lt_irrefl _ this
    · have hlt1 : (rewrite1 none l).length < l.length := rew1Go_ne_lt l.length none l h1
      have hle2 : (rewrite2 none (rewrite1 none l)).length ≤ (rewrite1 none l).length :=
        rew2Go_length _ none _
      rw [heq] at hle2
      omega
  · intro hpt
    have h1 : rewrite1 none l = l := ptGo_false_rew1 l.length none l (le_refl _) hpt
    rw [h1]
    exact ptGo_false_rew2 l.length none l (le_refl _) hpt

-- ============================================================
-- Archive entries and the artifact filter (src/utils.ts extractZip)
--
-- The AdmZip binary container codec is an external library; an archive
-- is therefore modelled as the list of its entries (name, directory
-- flag, payload bytes).  The logic of extractZip below the codec is
-- translated line by line: skip directories and entries whose full name
-- starts with a dot, flatten the entry name to its final path segment
-- (split on slash, take the last piece, falling back to the full name
-- when that piece is empty), drop names in the static artifact set and
-- names in the per-request input set, keep the rest.
-- ============================================================

structure ZipEntry where
  entryName : String
  isDirectory : Bool
  data : List Nat
deriving DecidableEq

def JUDGE0_ARTIFACTS : List String :=
  ["script.py", "script.js", "script.ts", "main.c", "main.cpp", "Main.java",
   "script.php", "main.rs", "main.go", "main.d", "main.f90", "script.r",
   "run.sh", "compile.sh"]

def splitSeg : List Char → List (List Char)
  | [] => [[]]
  | c :: cs =>
    if c = '/' then [] :: splitSeg cs
    else
      match splitSeg cs with
      | [] => [[c]]
      | s :: rest => (c :: s) :: rest

def flattenName (s : String) : String :=
  match (splitSeg s.toList).getLast? with
  | some last => if last = [] then s else String.mk last
  | none => s

def hiddenEntry (s : String) : Bool :=
  match s.toList with
  | '.' :: _ => true
  | _ => false

def extractZip (entries : List ZipEntry) (inputFileNames : List String) :
    List (String × List Nat) :=
  match entries with
  | [] => []
  | e :: rest =>
    if e.isDirectory || hiddenEntry e.entryName then extractZip rest inputFileNames
    else
      let name := flattenName e.entryName
      if name ∈ JUDGE0_ARTIFACTS then extractZip rest inputFileNames
      else if name ∈ inputFileNames then extractZip rest inputFileNames
      else (name, e.data) :: extractZip rest inputFileNames

-- ============================================================
-- In-memory storage backend (class MemoryStorage in src/storage.ts)
--
-- The sessions Map and each per-session files Map become association
-- lists; Date.now instants and the configured expiry window
-- (config.sessionExpiryMs) are Nat parameters named now and exp; the
-- nanoid fresh identifier of addFile and createSession is an explicit
-- argument.  Each operation returns its result together with the store
-- state after the call, making the mutation of lastAccessedAt explicit.
-- ============================================================

structure StoredFile where
  id : String
  name : String
  data : List Nat
  size : Nat
  createdAt : Nat
deriving DecidableEq

structure Session where
  id : String
  files : List (String × StoredFile)
  createdAt : Nat
  lastAccessedAt : Nat
deriving DecidableEq

structure MemState where
  sessions : List (String × Session)
deriving DecidableEq

structure FileItem where
  id : String
  name : String
  size : Nat
  lastModified : Nat
deriving DecidableEq

def isSessionValid (exp now : Nat) (st : MemState) (sid : String) : Bool :=
  match alGet st.sessions sid with
  | none => false
  | some s => now - s.lastAccessedAt < exp

def getSession (exp now : Nat) (st : MemState) (sid : String) :
    Option Session × MemState :=
  match alGet st.sessions sid with
  | none => (none, st)
  | some s =>
    if now - s.lastAccessedAt < exp then
      (some { s with lastAccessedAt := now },
       ⟨alSet st.sessions sid { s with lastAccessedAt := now }⟩)
    else (none, ⟨alErase st.sessions sid⟩)

def createSession (now : Nat) (st : MemState) (id : String) : MemState :=
  ⟨alSet st.sessions id ⟨id, [], now, now⟩⟩

def addFile (exp now : Nat) (st : MemState) (sid name : String) (data : List Nat)
    (fid : String) : String × MemState :=
  let g := getSession exp now st sid
  let sess : Session :=
    match g.1 with
    | some s => s
    | none => ⟨sid, [], now, now⟩
  let st1 : MemState :=
    match g.1 with
    | some _ => g.2
    | none => ⟨alSet g.2.sessions sid ⟨sid, [], now, now⟩⟩
  let f : StoredFile := ⟨fid, name, data, data.length, now⟩
  (fid, ⟨alSet st1.sessions sid { sess with files := alSet sess.files fid f }⟩)

def getFile (exp now : Nat) (st : MemState) (sid fid : String) :
    Option StoredFile × MemState :=
  match getSession exp now st sid with
  | (none, st1) => (none, st1)
  | (some s, st1) => (alGet s.files fid, st1)

def listFiles (exp now : Nat) (st : MemState) (sid : String) :
    List FileItem × MemState :=
  match getSession exp now st sid with
  | (none, st1) => ([], st1)
  | (some s, st1) =>
    (s.files.map (fun p => ⟨p.2.id, p.2.name, p.2.size, p.2.createdAt⟩), st1)

-- ============================================================
-- Redis storage backend (class RedisStorage in src/storage.ts)
--
-- Key layout of the source:
--   session:sid        hash (id, createdAt, lastAccessedAt)
--   session:sid:files  hash (fileId to JSON metadata)
--   file:sid:fileId    string (base64 payload)
-- Each key space is an association list whose values carry an Option
-- Nat expiry deadline (none meaning no TTL); a key is live when the
-- current instant is before its deadline, matching the Redis rule that
-- an expired key behaves as absent even before physical removal.
-- EXPIRE on a live key sets deadline now + ttl and is a no-op on a dead
-- or absent key; HSET on a live key updates fields preserving the TTL
-- and otherwise creates a fresh persistent key; SET overwrites the
-- value and clears any TTL.  ttl is the ttlSeconds of the source.
-- ============================================================

structure RSessMeta where
  id : String
  createdAt : Nat
  lastAccessedAt : Nat
deriving DecidableEq

structure RFileMeta where
  name : String
  size : Nat
  createdAt : Nat
deriving DecidableEq

structure RedisState where
  sessions : List (String × (RSessMeta × Option Nat))
  filesHashes : List (String × (List (String × RFileMeta) × Option Nat))
  fileData : List ((String × String) × (List Char × Option Nat))
deriving DecidableEq

def live (now : Nat) : Option Nat → Bool
  | none => true
  | some d => now < d

def rKeyLive {κ β : Type} [DecidableEq κ] (now : Nat)
    (m : List (κ × (β × Option Nat))) (k : κ) : Bool :=
  match alGet m k with
  | some (_, d) => live now d
  | none => false

def rKeyGet {κ β : Type} [DecidableEq κ] (now : Nat)
    (m : List (κ × (β × Option Nat))) (k : κ) : Option β :=
  match alGet m k with
  | some (v, d) => if live now d then some v else none
  | none => none

def rExpire {κ β : Type} [DecidableEq κ] (now ttl : Nat)
    (m : List (κ × (β × Option Nat))) (k : κ) : List (κ × (β × Option Nat)) :=
  match alGet m k with
  | some (v, d) => if live now d then alSet m k (v, some (now + ttl)) else m
  | none => m

def rHSet {κ β : Type} [DecidableEq κ] (now : Nat)
    (m : List (κ × (β × Option Nat))) (k : κ) (f : Option β → β) :
    List (κ × (β × Option Nat)) :=
  match alGet m k with
  | some (v, d) => if live now d then alSet m k (f (some v), d) else alSet m k (f none, none)
  | none => alSet m k (f none, none)

def refreshTTL (ttl now : Nat) (st : RedisState) (sid : String) : RedisState :=
  { st with
    sessions := rExpire now ttl st.sessions sid,
    filesHashes := rExpire now ttl st.filesHashes sid }

def createSessionR (ttl now : Nat) (st : RedisState) (id : String) : RedisState :=
  let st1 := { st with sessions := rHSet now st.sessions id (fun _ => ⟨id, now, now⟩) }
  { st1 with sessions := rExpire now ttl st1.sessions id }

def isSessionValidR (now : Nat) (st : RedisState) (sid : String) : Bool :=
  rKeyLive now st.sessions sid

def addFileR (ttl now : Nat) (st : RedisState) (sid name : String) (data : List Nat)
    (fid : String) : String × RedisState :=
  let st1 :=
    if rKeyLive now st.sessions sid then st
    else { st with sessions := rHSet now st.sessions sid (fun _ => ⟨sid, now, now⟩) }
  let meta : RFileMeta := ⟨name, data.length, now⟩
  let st2 := { st1 with
    filesHashes := rHSet now st1.filesHashes sid (fun old => alSet (old.getD []) fid meta) }
  let st3 := { st2 with fileData := alSet st2.fileData (sid, fid) (b64Encode data, none) }
  let st4 := { st3 with fileData := rExpire now ttl st3.fileData (sid, fid) }
  (fid, refreshTTL ttl now st4 sid)

def getFileR (ttl now : Nat) (st : RedisState) (sid fid : String) :
    Option StoredFile × RedisState :=
  if rKeyLive now st.sessions sid = false then (none, st)
  else
    match rKeyGet now st.filesHashes sid with
    | none => (none, st)
    | some hash =>
      match alGet hash fid with
      | none => (none, st)
      | some meta =>
        match rKeyGet now st.fileData (sid, fid) with
        | none => (none, st)
        | some s =>
          if s = [] then (none, st)
          else
            (some ⟨fid, meta.name, b64Decode s, meta.size, meta.createdAt⟩,
             refreshTTL ttl now st sid)

def listFilesR (ttl now : Nat) (st : RedisState) (sid : String) :
    List FileItem × RedisState :=
  if rKeyLive now st.sessions sid = false then ([], st)
  else
    let hash := (rKeyGet now st.filesHashes sid).getD []
    (hash.map (fun p => ⟨p.1, p.2.name, p.2.size, p.2.createdAt⟩),
     refreshTTL ttl now st sid)

-- ============================================================
-- Judge0 client (translateResponse, handleError, execute)
--
-- The remote backend is external, so one execution outcome - either a
-- Judge0 submission response or a transport error - is an input of the
-- model.  Response text fields hold the raw base64 strings; dec is the
-- decodeBase64 function parameter.  A JS truthiness test on an optional
-- string field is false exactly for an absent field and for the empty
-- string.  The storage singleton used by the client is the in-memory
-- backend, threaded explicitly; gen supplies the nanoid outputs, gen 0
-- being the session id minted by createSession and gen (i+1) the id of
-- the i-th stored output file.
-- ============================================================

structure J0Status where
  id : Nat
  description : Option String
deriving DecidableEq

structure J0Response where
  stdout : Option String
  stderr : Option String
  status : Option J0Status
  compile_output : Option String
  message : Option String
  post_execution_filesystem : Option (List ZipEntry)
deriving DecidableEq

inductive J0Error where
  | httpResponse : Nat → Option String → Option String → J0Error
  | connRefused : J0Error
  | timedOut : J0Error
  | other : String → J0Error
deriving DecidableEq

inductive J0Outcome where
  | ok : J0Response → J0Outcome
  | err : J0Error → J0Outcome
deriving DecidableEq

structure FileReference where
  id : String
  session_id : String
  name : String
deriving DecidableEq

structure ExecResponse where
  stdout : String
  stderr : String
  session_id : String
  files : Option (List (String × String))
deriving DecidableEq

def fyiNotice : String := "FYI: judge0-bridge replaces /mnt/data to ./\n\n"

def jsDecodeField (dec : String → String) : Option String → String
  | some s => if s = "" then "" else dec s
  | none => ""

def statusIdOf (resp : J0Response) : Option Nat :=
  match resp.status with
  | some s => some s.id
  | none => none

def runtimeStderr (dec : String → String) (resp : J0Response) : String :=
  let base := jsDecodeField dec resp.stderr
  match resp.status with
  | none => base
  | some s =>
    match s.description with
    | none => base
    | some d => if d = "" then base else (base ++ "\n[" ++ d ++ "]").trim

def classifyStderr (dec : String → String) (resp : J0Response) : String :=
  match statusIdOf resp with
  | some 6 =>
    match resp.compile_output with
    | some c => if c = "" then "Compilation error" else dec c
    | none => "Compilation error"
  | some 5 | some 7 | some 8 | some 9 | some 10 | some 11 | some 12 | some 14 =>
    runtimeStderr dec resp
  | some 13 =>
    match resp.message with
    | some m => if m = "" then "Internal execution error" else dec m
    | none => "Internal execution error"
  | _ => jsDecodeField dec resp.stderr

def buildStdout (dec : String → String) (flag : Bool) (resp : J0Response) : String :=
  (if flag then fyiNotice else "") ++ jsDecodeField dec resp.stdout

def storeLoop (exp now : Nat) (gen : Nat → String) (sid : String) :
    List (String × List Nat) → List (String × String) × MemState × Nat →
    List (String × String) × MemState × Nat
  | [], acc => acc
  | f :: rest, acc =>
    let r := addFile exp now acc.2.1 sid f.1 f.2 (gen (acc.2.2 + 1))
    storeLoop exp now gen sid rest (acc.1 ++ [(r.1, f.1)], r.2, acc.2.2 + 1)

def translateResponse (dec : String → String) (exp now : Nat) (gen : Nat → String)
    (st : MemState) (resp : J0Response) (inputFileNames : List String)
    (flag : Bool) : ExecResponse × MemState :=
  let sessionId := gen 0
  let st1 := createSession now st sessionId
  let extracted :=
    match resp.post_execution_filesystem with
    | some entries => extractZip entries inputFileNames
    | none => []
  let final := storeLoop exp now gen sessionId extracted ([], st1, 0)
  ({ stdout := buildStdout dec flag resp,
     stderr := classifyStderr dec resp,
     session_id := sessionId,
     files := if final.1 = [] then none else some final.1 }, final.2.1)

def httpMsgPart : Option String → String
  | some m => if m = "" then "" else ": " ++ m
  | none => ""

def errorMessage : J0Error → String
  | J0Error.httpResponse status errF msgF =>
    "Judge0 error (" ++ toString status ++ ")" ++
    (match errF with
     | some e => if e = "" then httpMsgPart msgF else ": " ++ e
     | none => httpMsgPart msgF)
  | J0Error.connRefused => "Judge0 service unavailable"
  | J0Error.timedOut => "Execution timed out"
  | J0Error.other msg => "Execution failed: " ++ msg

def handleError (now : Nat) (gen : Nat → String) (st : MemState) (e : J0Error) :
    ExecResponse × MemState :=
  let sessionId := gen 0
  let st1 := createSession now st sessionId
  ({ stdout := "", stderr := errorMessage e, session_id := sessionId, files := none }, st1)

def resolveInputs (exp now : Nat) (st : MemState) (files : List FileReference) :
    List String × MemState :=
  files.foldl
    (fun acc r =>
      match getFile exp now acc.2 r.session_id r.id with
      | (some _, st2) => (acc.1 ++ [r.name], st2)
      | (none, st2) => (acc.1, st2))
    ([], st)

def execute (dec : String → String) (exp now : Nat) (gen : Nat → String) (st : MemState)
    (code : String) (files : List FileReference) (outcome : J0Outcome) :
    ExecResponse × MemState :=
  let flag := pathTest code.toList
  let r := resolveInputs exp now st files
  match outcome with
  | J0Outcome.ok resp => translateResponse dec exp now gen r.2 resp r.1 flag
  | J0Outcome.err e => handleError now gen r.2 e

-- ============================================================
-- Helper lemmas on the storage models
-- ============================================================

theorem getSession_some (exp now : Nat) (st : MemState) (sid : String) (s : Session)
    (hs : alGet st.sessions sid = some s) (hv : now - s.lastAccessedAt < exp) :
    getSession exp now st sid =
      (some { s with lastAccessedAt := now },
       ⟨alSet st.sessions sid { s with lastAccessedAt := now }⟩) := by
  simp [getSession, hs, hv]

theorem getSession_none_absent (exp now : Nat) (st : MemState) (sid : String)
    (hs : alGet st.sessions sid = none) :
    getSession exp now st sid = (none, st) := by
  simp [getSession, hs]

theorem rKeyLive_hset {κ β : Type} [DecidableEq κ] (now : Nat)
    (m : List (κ × (β × Option Nat))) (k : κ) (f : Option β → β) :
    rKeyLive now (rHSet now m k f) k = true := by
  cases hm : alGet m k with
  | none => simp [rKeyLive, rHSet, hm, alGet_alSet_self, live]
  | some vd =>
    rcases vd with ⟨v, d⟩
    cases hl : live now d with
    | true =>
      have hset : rHSet now m k f = alSet m k (f (some v), d) := by
        simp [rHSet, hm, hl]
      rw [hset]
      simp [rKeyLive, alGet_alSet_self, hl]
    | false =>
      have hset : rHSet now m k f = alSet m k (f none, none) := by
        simp [rHSet, hm, hl]
      rw [hset]
      simp [rKeyLive, alGet_alSet_self, live]

theorem rKeyGet_hset {κ β : Type} [DecidableEq κ] (now : Nat)
    (m : List (κ × (β × Option Nat))) (k : κ) (f : Option β → β) :
    rKeyGet now (rHSet now m k f) k = some (f (rKeyGet now m k)) := by
  cases hm : alGet m k with
  | none => simp [rKeyGet, rHSet, hm, alGet_alSet_self, live]
  | some vd =>
    rcases vd with ⟨v, d⟩
    cases hl : live now d with
    | true =>
      have hset : rHSet now m k f = alSet m k (f (some v), d) := by
        simp [rHSet, hm, hl]
      rw [hset]
      simp [rKeyGet, alGet_alSet_self, hl, hm]
    | false =>
      have hset : rHSet now m k f = alSet m k (f none, none) := by
        simp [rHSet, hm, hl]
      have hr : rKeyGet now m k = none := by simp [rKeyGet, hm, hl]
      rw [hset, hr]
      simp [rKeyGet, alGet_alSet_self, live]

theorem rKeyLive_expire {κ β : Type} [DecidableEq κ] (now ttl : Nat)
    (m : List (κ × (β × Option Nat))) (k : κ) (httl : 0 < ttl)
    (h : rKeyLive now m k = true) : rKeyLive now (rExpire now ttl m k) k = true := by
  cases hm : alGet m k with
  | none => simp [rKeyLive, hm] at h
  | some vd =>
    rcases vd with ⟨v, d⟩
    have h2 : live now d = true := by simpa [rKeyLive, hm] using h
    simp only [rExpire, hm, h2, if_true]
    simp only [rKeyLive, alGet_alSet_self]
    simp [live]
    omega

theorem rKeyGet_expire {κ β : Type} [DecidableEq κ] (now ttl : Nat)
    (m : List (κ × (β × Option Nat))) (k : κ) (v : β) (httl : 0 < ttl)
    (h : rKeyGet now m k = some v) : rKeyGet now (rExpire now ttl m k) k = some v := by
  cases hm : alGet m k with
  | none => simp [rKeyGet, hm] at h
  | some vd =>
    rcases vd with ⟨w, d⟩
    cases hl : live now d with
    | false => simp [rKeyGet, hm, hl] at h
    | true =>
      have hwv : w = v := by simpa [rKeyGet, hm, hl] using h
      subst hwv
      simp only [rExpire, hm, hl, if_true]
      simp only [rKeyGet, alGet_alSet_self]
      simp [live]
      omega

theorem rKeyGet_live {κ β : Type} [DecidableEq κ] (now : Nat)
    (m : List (κ × (β × Option Nat))) (k : κ) (v : β)
    (h : rKeyGet now m k = some v) : rKeyLive now m k = true := by
  cases hm : alGet m k with
  | none => simp [rKeyGet, hm] at h
  | some vd =>
    rcases vd with ⟨w, d⟩
    cases hl : live now d with
    | false => simp [rKeyGet, hm, hl] at h
    | true => simp [rKeyLive, hm, hl]

/-- C10: in the in-memory backend, getFile on a currently valid session id
with an unknown file id returns none and still refreshes the lastAccessedAt
timestamp of the session, so the failed read extends the session lifetime. -/
theorem c10_getFile_miss_refreshes (exp now : Nat) (st : MemState) (sid fid : String)
    (s : Session) (hs : alGet st.sessions sid = some s)
    (hv : now - s.lastAccessedAt < exp) (hf : alGet s.files fid = none) :
    (getFile exp now st sid fid).1 = none ∧
    alGet ((getFile exp now st sid fid).2).sessions sid
      = some { s with lastAccessedAt := now } := by
  have hg := getSession_some exp now st sid s hs hv
  constructor
  · simp [getFile, hg, hf]
  · simp [getFile, hg, alGet_alSet_self]

/-- C10 witness at a concrete store: the session was last accessed at
instant 0, the failed read at instant 5 leaves it stamped 5. -/
theorem c10_getFile_miss_refreshes_witness :
    (getFile 10 5 ⟨[("s", ⟨"s", [], 0, 0⟩)]⟩ "s" "f").1 = none ∧
    alGet ((getFile 10 5 ⟨[("s", ⟨"s", [], 0, 0⟩)]⟩ "s" "f").2).sessions "s"
      = some ⟨"s", [], 0, 5⟩ := by
  have h := c10_getFile_miss_refreshes 10 5 ⟨[("s", ⟨"s", [], 0, 0⟩)]⟩ "s" "f"
    ⟨"s", [], 0, 0⟩ (by decide) (by decide) (by decide)
  exact h

/-- C5: a session id that is unknown, or whose TTL has elapsed since its
last access, behaves as absent to the read operations of both backends:
getFile answers none and listFiles answers the empty list, not an error. -/
theorem c5_absent_reads :
    (∀ exp now st sid fid, isSessionValid exp now st sid = false →
       (getFile exp now st sid fid).1 = none ∧ (listFiles exp now st sid).1 = []) ∧
    (∀ ttl now st sid fid, isSessionValidR now st sid = false →
       (getFileR ttl now st sid fid).1 = none ∧ (listFilesR ttl now st sid).1 = []) := by
  constructor
  · intro exp now st sid fid hinv
    cases hs : alGet st.sessions sid with
    | none =>
      have hg := getSession_none_absent exp now st sid hs
      simp [getFile, listFiles, hg]
    | some s =>
      have hv : ¬(now - s.lastAccessedAt < exp) := by
        simp [isSessionValid, hs] at hinv
        exact fun hc => absurd hc (by simpa using hinv)
      have hg : getSession exp now st sid = (none, ⟨alErase st.sessions sid⟩) := by
        simp [getSession, hs, hv]
      simp [getFile, listFiles, hg]
  · intro ttl now st sid fid hinv
    unfold isSessionValidR at hinv
    constructor
    · simp [getFileR, hinv]
    · simp [listFilesR, hinv]

/-- C5 witness: an empty memory store and an empty Redis store at concrete
arguments. -/
theorem c5_absent_reads_witness :
    ((getFile 10 0 ⟨[]⟩ "s" "f").1 = none ∧ (listFiles 10 0 ⟨[]⟩ "s").1 = []) ∧
    ((getFileR 10 0 ⟨[], [], []⟩ "s" "f").1 = none ∧
     (listFilesR 10 0 ⟨[], [], []⟩ "s").1 = []) := by
  refine ⟨c5_absent_reads.1 10 0 ⟨[]⟩ "s" "f" (by decide),
          c5_absent_reads.2 10 0 ⟨[], [], []⟩ "s" "f" (by decide)⟩

/-- C2 counterexample: the claim states that an occurrence of the mount
prefix not on a segment boundary, with a character x immediately adjoining
the prefix, is left unmodified; the code rewrites x/mnt/data to x. because
the lookbehind excludes only a preceding dot, not a preceding word
character. -/
theorem c2_path_rewrite_counterexample :
    translateCode "x/mnt/data" = "x." ∧ translateCode "x/mnt/data" ≠ "x/mnt/data" := by
  constructor
  · decide
  · decide

def prevAfter (p : Option Char) : List Char → Option Char
  | [] => p
  | c :: a => prevAfter (some c) a

theorem drop9_append (t : List Char) : (mntBare ++ t).drop 9 = t := by
  simp [mntBare, List.drop]

theorem ptGo_iff : ∀ (fuel : Nat) (prev : Option Char) (l : List Char), l.length ≤ fuel →
    (ptGo fuel prev l = true ↔
     ∃ a b, l = a ++ mntBare ++ b ∧ notDot (prevAfter prev a) = true ∧
       nextIsWord b = false) := by
  intro fuel
  induction fuel with
  | zero =>
    intro prev l hlen
    have hl : l = [] := List.length_eq_zero.mp (Nat.le_zero.mp hlen)
    subst hl
    simp only [ptGo, Bool.false_eq_true, false_iff]
    rintro ⟨a, b, h, -, -⟩
    have := congrArg List.length h
    simp [mntBare] at this
    omega
  | succ fuel ih =>
    intro prev l hlen
    cases l with
    | nil =>
      simp only [ptGo, Bool.false_eq_true, false_iff]
      rintro ⟨a, b, h, -, -⟩
      have := congrArg List.length h
      simp [mntBare] at this
      omega
    | cons c cs =>
      have hlen2 : cs.length ≤ fuel := by
        simp only [List.length_cons] at hlen
        omega
      by_cases hc2 : cond2 prev (c :: cs) = true
      · simp only [ptGo, hc2, if_true, true_iff]
        simp only [cond2, Bool.and_eq_true, Bool.not_eq_true'] at hc2
        obtain ⟨⟨hlw, hdot⟩, hbnd⟩ := hc2
        obtain ⟨t, ht⟩ := (leadsWith_iff mntBare (c :: cs)).mp hlw
        refine ⟨[], t, by simpa using ht, by simpa [prevAfter] using hdot, ?_⟩
        rw [ht, drop9_append] at hbnd
        exact hbnd
      · simp only [ptGo, hc2, Bool.false_eq_true, if_false]
        rw [ih (some c) cs hlen2]
        constructor
        · rintro ⟨a, b, hsplit, hdot, hw⟩
          exact ⟨c :: a, b, by simpa using hsplit, hdot, hw⟩
        · rintro ⟨a, b, hsplit, hdot, hw⟩
          cases a with
          | nil =>
            exfalso
            apply hc2
            simp only [List.nil_append] at hsplit
            have h1 : leadsWith mntBare (c :: cs) = true :=
              (leadsWith_iff mntBare (c :: cs)).mpr ⟨b, hsplit⟩
            have hd : (c :: cs).drop 9 = b := by rw [hsplit, drop9_append]
            have hdot2 : notDot prev = true := by simpa [prevAfter] using hdot
            simp [cond2, h1, hd, hdot2, hw]
          | cons x xs =>
            have hx : c = x ∧ cs = xs ++ (mntBare ++ b) := by
              simpa using hsplit
            obtain ⟨hx1, hx2⟩ := hx
            subst hx1
            exact ⟨xs, b, by simpa using hx2, hdot, hw⟩

theorem pathTest_iff_split (l : List Char) :
    pathTest l = true ↔
    ∃ a b, l = a ++ mntBare ++ b ∧ notDot (prevAfter none a) = true ∧
      nextIsWord b = false :=
  ptGo_iff l.length none l (le_refl _)

theorem translate_unchanged_iff (code : String) :
    translateCode code = code ↔ pathTest code.toList = false := by
  constructor
  · intro h
    exact (translate_fix_iff code.toList).mp (congrArg String.data h)
  · intro h
    exact congrArg String.mk ((translate_fix_iff code.toList).mpr h)

/-- C2 amended: the rewrite scans left to right with non-overlapping
matches and changes the source exactly when it contains an occurrence of
/mnt/data that is not immediately preceded by a dot and is not followed
by a word character (proved universally as an iff over every source
string).  Dot-preceded occurrences and occurrences followed by a word
character never match, so a source with only such occurrences is left
unmodified; a non-dot character immediately before the prefix does not
prevent rewriting (x/mnt/data becomes x.); and an occurrence overlapping
an earlier match survives, as in /mnt/data/mnt/data which becomes
./mnt/data. -/
theorem c2_path_rewrite_amended :
    (∀ code : String,
       translateCode code = code ↔
       ¬∃ a b, code.toList = a ++ mntBare ++ b ∧
          notDot (prevAfter none a) = true ∧ nextIsWord b = false) ∧
    translateCode "/mnt/data/sub/file" = "./sub/file" ∧
    translateCode "/mnt/data" = "." ∧
    translateCode "/mnt/datax" = "/mnt/datax" ∧
    translateCode "./mnt/data/f.csv" = "./mnt/data/f.csv" ∧
    translateCode "x/mnt/data" = "x." ∧
    translateCode "/mnt/data/mnt/data" = "./mnt/data" ∧
    translateCode "print(42)" = "print(42)" := by
  refine ⟨?_, by decide, by decide, by decide, by decide, by decide, by decide, by decide⟩
  intro code
  rw [translate_unchanged_iff]
  constructor
  · intro h hex
    have := (pathTest_iff_split code.toList).mpr hex
    rw [h] at this
    exact Bool.noConfusion this
  · intro h
    cases hpt : pathTest code.toList with
    | false => rfl
    | true => exact absurd ((pathTest_iff_split code.toList).mp hpt) h

/-- C7: an unpacked archive entry that is not a directory and not hidden is
excluded from the output set exactly when its flattened filename is in the
static artifact deny-list or in the per-request input-name set; on the
concrete archive of the claim only result.csv survives. -/
theorem c7_artifact_filter :
    (∀ (e : ZipEntry) (inputs : List String),
       e.isDirectory = false → hiddenEntry e.entryName = false →
       extractZip [e] inputs =
         if flattenName e.entryName ∈ JUDGE0_ARTIFACTS ∨ flattenName e.entryName ∈ inputs
         then [] else [(flattenName e.entryName, e.data)]) ∧
    extractZip
      [⟨"script.py", false, [1]⟩, ⟨"run.sh", false, [2]⟩,
       ⟨"input.csv", false, [3]⟩, ⟨"result.csv", false, [4]⟩]
      ["input.csv"] = [("result.csv", [4])] := by
  constructor
  · intro e inputs hdir hhid
    by_cases h1 : flattenName e.entryName ∈ JUDGE0_ARTIFACTS
    · simp [extractZip, hdir, hhid, h1]
    · by_cases h2 : flattenName e.entryName ∈ inputs
      · simp [extractZip, hdir, hhid, h1, h2]
      · simp [extractZip, hdir, hhid, h1, h2]
  · decide

/-- C7 witness: a nested non-artifact entry is kept under its flattened
name. -/
theorem c7_artifact_filter_witness :
    extractZip [⟨"out/plot.png", false, [9]⟩] ["input.csv"] = [("plot.png", [9])] := by
  have h := c7_artifact_filter.1 ⟨"out/plot.png", false, [9]⟩ ["input.csv"] rfl (by decide)
  exact h.trans (by decide)

theorem getFileR_of_facts (ttl now : Nat) (st : RedisState) (sid fid : String)
    (meta : RFileMeta) (enc : List Char) (hash : List (String × RFileMeta))
    (hsess : rKeyLive now st.sessions sid = true)
    (hhash : rKeyGet now st.filesHashes sid = some hash)
    (hmeta : alGet hash fid = some meta)
    (hdata : rKeyGet now st.fileData (sid, fid) = some enc) (hne : enc ≠ []) :
    (getFileR ttl now st sid fid).1
      = some ⟨fid, meta.name, b64Decode enc, meta.size, meta.createdAt⟩ := by
  simp [getFileR, hsess, hhash, hmeta, hdata, hne]

theorem addFileR_facts (ttl now : Nat) (st : RedisState) (sid name : String)
    (data : List Nat) (fid : String) (httl : 0 < ttl) :
    rKeyLive now ((addFileR ttl now st sid name data fid).2).sessions sid = true ∧
    rKeyGet now ((addFileR ttl now st sid name data fid).2).filesHashes sid
      = some (alSet ((rKeyGet now st.filesHashes sid).getD []) fid
          ⟨name, data.length, now⟩) ∧
    rKeyGet now ((addFileR ttl now st sid name data fid).2).fileData (sid, fid)
      = some (b64Encode data) := by
  have hdata : ∀ (fd : List ((String × String) × (List Char × Option Nat))),
      rKeyGet now (rExpire now ttl (alSet fd (sid, fid) (b64Encode data, none)) (sid, fid))
        (sid, fid) = some (b64Encode data) := by
    intro fd
    apply rKeyGet_expire now ttl _ _ _ httl
    simp [rKeyGet, alGet_alSet_self, live]
  have hhash : ∀ (fh : List (String × (List (String × RFileMeta) × Option Nat))),
      rKeyGet now (rExpire now ttl
          (rHSet now fh sid (fun old => alSet (old.getD []) fid ⟨name, data.length, now⟩))
          sid) sid
        = some (alSet ((rKeyGet now fh sid).getD []) fid ⟨name, data.length, now⟩) := by
    intro fh
    apply rKeyGet_expire now ttl _ _ _ httl
    rw [rKeyGet_hset]
  cases hlive : rKeyLive now st.sessions sid with
  | true =>
    simp only [addFileR, hlive, if_true, refreshTTL]
    refine ⟨rKeyLive_expire now ttl _ sid httl hlive, hhash st.filesHashes, hdata st.fileData⟩
  | false =>
    simp only [addFileR, hlive, Bool.false_eq_true, if_false, refreshTTL]
    refine ⟨rKeyLive_expire now ttl _ sid httl (rKeyLive_hset now _ sid _),
            hhash st.filesHashes, hdata st.fileData⟩

/-- C4: addFile on a well-formed session id that does not currently exist
creates the session under the caller-supplied id, stores the file in it
(metadata entry and payload key in the Redis backend, files-map entry in
the memory backend, with a byte-exact read-back), and immediately
afterwards isSessionValid answers true, in both backends. -/
theorem c4_adoption :
    (∀ exp now st sid name data fid, (alGet st.sessions sid = none) → 0 < exp →
       (addFile exp now st sid name data fid).1 = fid ∧
       (∃ s2, alGet ((addFile exp now st sid name data fid).2).sessions sid = some s2 ∧
          s2.id = sid ∧
          alGet s2.files fid = some ⟨fid, name, data, data.length, now⟩) ∧
       isSessionValid exp now (addFile exp now st sid name data fid).2 sid = true) ∧
    (∀ ttl now st sid name data fid, isSessionValidR now st sid = false → 0 < ttl →
       (addFileR ttl now st sid name data fid).1 = fid ∧
       isSessionValidR now (addFileR ttl now st sid name data fid).2 sid = true ∧
       (∃ hash, rKeyGet now ((addFileR ttl now st sid name data fid).2).filesHashes sid
           = some hash ∧ alGet hash fid = some ⟨name, data.length, now⟩) ∧
       rKeyGet now ((addFileR ttl now st sid name data fid).2).fileData (sid, fid)
         = some (b64Encode data) ∧
       ((∀ b ∈ data, b < 256) → data ≠ [] →
          (getFileR ttl now (addFileR ttl now st sid name data fid).2 sid fid).1
            = some ⟨fid, name, data, data.length, now⟩)) := by
  constructor
  · intro exp now st sid name data fid hnone hexp
    have hg := getSession_none_absent exp now st sid hnone
    refine ⟨rfl, ?_, ?_⟩
    · refine ⟨⟨sid, [(fid, ⟨fid, name, data, data.length, now⟩)], now, now⟩, ?_, rfl, ?_⟩
      · simp only [addFile, hg]
        exact alGet_alSet_self _ _ _
      · simp [alGet]
    · simp only [addFile, hg, isSessionValid, alGet_alSet_self]
      simp [hexp]
  · intro ttl now st sid name data fid _hnone httl
    obtain ⟨h1, h2, h3⟩ := addFileR_facts ttl now st sid name data fid httl
    refine ⟨rfl, h1, ⟨_, h2, alGet_alSet_self _ _ _⟩, h3, ?_⟩
    intro hbytes hne
    have henc : b64Encode data ≠ [] := fun he => hne ((b64Encode_eq_nil_iff data).mp he)
    have hg := getFileR_of_facts ttl now (addFileR ttl now st sid name data fid).2 sid fid
      ⟨name, data.length, now⟩ (b64Encode data) _ h1 h2 (alGet_alSet_self _ _ _) h3 henc
    rw [hg]
    simp [b64_round data hbytes]

/-- C4 witness: adopting the fresh id s in an empty store of each backend,
with the stored file visible and readable afterwards. -/
theorem c4_adoption_witness :
    ((addFile 10 0 ⟨[]⟩ "s" "a.txt" [1] "f").1 = "f" ∧
     (∃ s2, alGet ((addFile 10 0 ⟨[]⟩ "s" "a.txt" [1] "f").2).sessions "s" = some s2 ∧
        s2.id = "s" ∧ alGet s2.files "f" = some ⟨"f", "a.txt", [1], 1, 0⟩) ∧
     isSessionValid 10 0 (addFile 10 0 ⟨[]⟩ "s" "a.txt" [1] "f").2 "s" = true) ∧
    ((addFileR 10 0 ⟨[], [], []⟩ "s" "a.txt" [1] "f").1 = "f" ∧
     isSessionValidR 0 (addFileR 10 0 ⟨[], [], []⟩ "s" "a.txt" [1] "f").2 "s" = true ∧
     (∃ hash, rKeyGet 0 ((addFileR 10 0 ⟨[], [], []⟩ "s" "a.txt" [1] "f").2).filesHashes
         "s" = some hash ∧ alGet hash "f" = some ⟨"a.txt", 1, 0⟩) ∧
     rKeyGet 0 ((addFileR 10 0 ⟨[], [], []⟩ "s" "a.txt" [1] "f").2).fileData ("s", "f")
       = some (b64Encode [1]) ∧
     (getFileR 10 0 (addFileR 10 0 ⟨[], [], []⟩ "s" "a.txt" [1] "f").2 "s" "f").1
       = some ⟨"f", "a.txt", [1], 1, 0⟩) := by
  refine ⟨c4_adoption.1 10 0 ⟨[]⟩ "s" "a.txt" [1] "f" (by decide) (by decide), ?_⟩
  have h := c4_adoption.2 10 0 ⟨[], [], []⟩ "s" "a.txt" [1] "f" (by decide) (by decide)
  exact ⟨h.1, h.2.1, h.2.2.1, h.2.2.2.1, h.2.2.2.2 (by decide) (by decide)⟩

/-- C1: adding a file and reading it back returns the same name and the
byte-exact payload.  The in-memory backend satisfies this for every
payload of a currently valid session; the Redis backend satisfies it for
every nonempty payload, but loses empty payloads: storing an empty buffer
and reading it back yields none, because the empty base64 string fails
the JS truthiness test that is meant to detect a missing key. -/
theorem c1_roundtrip :
    (∀ exp now st sid name data fid s, 0 < exp →
       alGet st.sessions sid = some s → now - s.lastAccessedAt < exp →
       (getFile exp now (addFile exp now st sid name data fid).2 sid fid).1
         = some ⟨fid, name, data, data.length, now⟩) ∧
    (∀ ttl now st sid name data fid, 0 < ttl → (∀ b ∈ data, b < 256) → data ≠ [] →
       (getFileR ttl now (addFileR ttl now st sid name data fid).2 sid fid).1
         = some ⟨fid, name, data, data.length, now⟩) ∧
    (getFileR 10 0 (addFileR 10 0 ⟨[], [], []⟩ "s" "empty.txt" [] "f1").2 "s" "f1").1
      = none := by
  refine ⟨?_, ?_, by decide⟩
  · intro exp now st sid name data fid s hexp hs hv
    have hg := getSession_some exp now st sid s hs hv
    simp only [addFile, hg]
    simp [getFile, getSession, alGet_alSet_self, Nat.sub_self, hexp]
  · intro ttl now st sid name data fid httl hbytes hne
    obtain ⟨h1, h2, h3⟩ := addFileR_facts ttl now st sid name data fid httl
    have henc : b64Encode data ≠ [] := by
      intro he
      exact hne ((b64Encode_eq_nil_iff data).mp he)
    have := getFileR_of_facts ttl now (addFileR ttl now st sid name data fid).2 sid fid
      ⟨name, data.length, now⟩ (b64Encode data) _ h1 h2 (alGet_alSet_self _ _ _) h3 henc
    rw [this]
    simp [b64_round data hbytes]

/-- C1 witness: a binary payload with a zero byte and a 255 byte
round-trips through each backend. -/
theorem c1_roundtrip_witness :
    (getFile 1000 5 (addFile 1000 5 ⟨[("s", ⟨"s", [], 0, 3⟩)]⟩ "s" "a.bin"
        [0, 255, 7] "f").2 "s" "f").1 = some ⟨"f", "a.bin", [0, 255, 7], 3, 5⟩ ∧
    (getFileR 100 7 (addFileR 100 7 ⟨[], [], []⟩ "s" "b.bin" [0, 255] "g").2
        "s" "g").1 = some ⟨"g", "b.bin", [0, 255], 2, 7⟩ := by
  refine ⟨c1_roundtrip.1 1000 5 ⟨[("s", ⟨"s", [], 0, 3⟩)]⟩ "s" "a.bin" [0, 255, 7] "f"
            ⟨"s", [], 0, 3⟩ (by decide) (by decide) (by decide),
          c1_roundtrip.2.1 100 7 ⟨[], [], []⟩ "s" "b.bin" [0, 255] "g"
            (by decide) (by decide) (by decide)⟩

/-- C3: the claim states that every TTL refresh covers all keys of a
session including each file payload key; in the code refreshTTL only
expires the session metadata key and the file-list key and never touches
the payload keys, so a payload key can expire while the session metadata
and the file-list entry are still live.  The trace: a file is added at
instant 0 with ttl 10, the session is touched at instant 9 (which
refreshes the two session keys to deadline 19 but leaves the payload
deadline at 10); at instant 10 the session is still valid and the file is
still listed, yet reading it returns none. -/
theorem c3_payload_ttl_not_refreshed :
    (∀ ttl now st sid, (refreshTTL ttl now st sid).fileData = st.fileData) ∧
    (isSessionValidR 10
        (listFilesR 10 9 (addFileR 10 0 ⟨[], [], []⟩ "s" "a.txt" [65] "f1").2 "s").2
        "s" = true ∧
     (listFilesR 10 10
        (listFilesR 10 9 (addFileR 10 0 ⟨[], [], []⟩ "s" "a.txt" [65] "f1").2 "s").2
        "s").1 = [⟨"f1", "a.txt", 1, 0⟩] ∧
     (getFileR 10 10
        (listFilesR 10 9 (addFileR 10 0 ⟨[], [], []⟩ "s" "a.txt" [65] "f1").2 "s").2
        "s" "f1").1 = none) := by
  refine ⟨fun ttl now st sid => rfl, by decide, by decide, by decide⟩

/-- C8: on a compilation-failure status (id 6) the normalized stderr is
the decoded compile output verbatim when that field is present and
nonempty, and the fixed fallback string when it is absent; stdout is
built by the normal stdout decoding, unaffected by this branch. -/
theorem c8_compile_error_stderr (dec : String → String) (exp now : Nat)
    (gen : Nat → String) (st : MemState) (resp : J0Response) (inputs : List String)
    (flag : Bool) (d : Option String) (hstatus : resp.status = some ⟨6, d⟩) :
    (∀ c, resp.compile_output = some c → c ≠ "" →
       (translateResponse dec exp now gen st resp inputs flag).1.stderr = dec c) ∧
    (resp.compile_output = none →
       (translateResponse dec exp now gen st resp inputs flag).1.stderr
         = "Compilation error") ∧
    (translateResponse dec exp now gen st resp inputs flag).1.stdout
      = (if flag then fyiNotice else "") ++ jsDecodeField dec resp.stdout := by
  have hsid : statusIdOf resp = some 6 := by simp [statusIdOf, hstatus]
  have hstderr : (translateResponse dec exp now gen st resp inputs flag).1.stderr
      = classifyStderr dec resp := rfl
  have hstdout : (translateResponse dec exp now gen st resp inputs flag).1.stdout
      = buildStdout dec flag resp := rfl
  refine ⟨?_, ?_, ?_⟩
  · intro c hc hcne
    rw [hstderr]
    simp [classifyStderr, hsid, hc, hcne]
  · intro hc
    rw [hstderr]
    simp [classifyStderr, hsid, hc]
  · rw [hstdout]
    rfl

/-- C8 witness: a populated compile-output field comes back verbatim
through the identity decoder, and an absent one yields the fallback. -/
theorem c8_compile_error_stderr_witness :
    (translateResponse (fun s => s) 10 0 (fun _ => "sid") ⟨[]⟩
        ⟨none, none, some ⟨6, none⟩, some "boom", none, none⟩ [] false).1.stderr
      = "boom" ∧
    (translateResponse (fun s => s) 10 0 (fun _ => "sid") ⟨[]⟩
        ⟨none, none, some ⟨6, none⟩, none, none, none⟩ [] false).1.stderr
      = "Compilation error" := by
  refine ⟨(c8_compile_error_stderr (fun s => s) 10 0 (fun _ => "sid") ⟨[]⟩
            ⟨none, none, some ⟨6, none⟩, some "boom", none, none⟩ [] false none rfl).1
            "boom" rfl (by decide),
          (c8_compile_error_stderr (fun s => s) 10 0 (fun _ => "sid") ⟨[]⟩
            ⟨none, none, some ⟨6, none⟩, none, none, none⟩ [] false none rfl).2.1 rfl⟩

theorem addFile_keeps_stamp (exp now : Nat) (st : MemState) (sid n : String)
    (data : List Nat) (fid : String) (hexp : 0 < exp) (s : Session)
    (hs : alGet st.sessions sid = some s) (hla : s.lastAccessedAt = now) :
    ∃ s2, alGet ((addFile exp now st sid n data fid).2).sessions sid = some s2 ∧
      s2.lastAccessedAt = now := by
  have hv : now - s.lastAccessedAt < exp := by
    rw [hla, Nat.sub_self]
    exact hexp
  have hg := getSession_some exp now st sid s hs hv
  exact ⟨_, by simp only [addFile, hg]; exact alGet_alSet_self _ _ _, rfl⟩

theorem storeLoop_keeps (exp now : Nat) (gen : Nat → String) (sid : String)
    (hexp : 0 < exp) :
    ∀ (files : List (String × List Nat)) (acc : List (String × String) × MemState × Nat),
      (∃ s, alGet acc.2.1.sessions sid = some s ∧ s.lastAccessedAt = now) →
      ∃ s2, alGet ((storeLoop exp now gen sid files acc).2.1).sessions sid = some s2 ∧
        s2.lastAccessedAt = now := by
  intro files
  induction files with
  | nil => intro acc h; exact h
  | cons f rest ih =>
    intro acc h
    obtain ⟨s, hs, hla⟩ := h
    simp only [storeLoop]
    exact ih _ (addFile_keeps_stamp exp now acc.2.1 sid f.1 f.2 (gen (acc.2.2 + 1))
      hexp s hs hla)

theorem translateResponse_valid (dec : String → String) (exp now : Nat)
    (gen : Nat → String) (st : MemState) (resp : J0Response)
    (inputs : List String) (flag : Bool) (hexp : 0 < exp) :
    (translateResponse dec exp now gen st resp inputs flag).1.session_id = gen 0 ∧
    isSessionValid exp now (translateResponse dec exp now gen st resp inputs flag).2
      (gen 0) = true := by
  refine ⟨rfl, ?_⟩
  obtain ⟨s2, hs2, hla⟩ := storeLoop_keeps exp now gen (gen 0) hexp
    (match resp.post_execution_filesystem with
     | some entries => extractZip entries inputs
     | none => [])
    ([], createSession now st (gen 0), 0)
    ⟨⟨gen 0, [], now, now⟩, alGet_alSet_self _ _ _, rfl⟩
  have hst : (translateResponse dec exp now gen st resp inputs flag).2
      = (storeLoop exp now gen (gen 0)
          (match resp.post_execution_filesystem with
           | some entries => extractZip entries inputs
           | none => []) ([], createSession now st (gen 0), 0)).2.1 := rfl
  rw [hst]
  simp [isSessionValid, hs2, hla, hexp]

/-- C6: every code path of execute, in particular every backend transport
error, produces a normalized response whose session id is the one minted
first (gen 0) and is valid in the resulting store; a transport error is
rendered as the classified stderr message with empty stdout and no file
list, never propagated. -/
theorem c6_session_always_minted (dec : String → String) (exp now : Nat)
    (gen : Nat → String) (st : MemState) (code : String)
    (files : List FileReference) (outcome : J0Outcome) (hexp : 0 < exp) :
    (execute dec exp now gen st code files outcome).1.session_id = gen 0 ∧
    isSessionValid exp now (execute dec exp now gen st code files outcome).2
      ((execute dec exp now gen st code files outcome).1.session_id) = true ∧
    (∀ e, outcome = J0Outcome.err e →
       (execute dec exp now gen st code files outcome).1.stdout = "" ∧
       (execute dec exp now gen st code files outcome).1.stderr = errorMessage e ∧
       (execute dec exp now gen st code files outcome).1.files = none) := by
  cases outcome with
  | err e =>
    refine ⟨rfl, ?_, ?_⟩
    · simp [execute, handleError, isSessionValid, createSession, alGet_alSet_self, hexp]
    · intro e2 he
      injection he with h
      subst h
      exact ⟨rfl, rfl, rfl⟩
  | ok resp =>
    have h := translateResponse_valid dec exp now gen
      (resolveInputs exp now st files).2 resp (resolveInputs exp now st files).1
      (pathTest code.toList) hexp
    have hid : (execute dec exp now gen st code files (J0Outcome.ok resp)).1.session_id
        = gen 0 := h.1
    refine ⟨hid, ?_, ?_⟩
    · rw [hid]
      exact h.2
    · intro e2 he
      simp at he

/-- C6 witness: a connection-refused transport error in a fresh store. -/
theorem c6_session_always_minted_witness :
    (execute (fun s => s) 5 0 (fun _ => "sid") ⟨[]⟩ "print(1)" []
        (J0Outcome.err J0Error.connRefused)).1.session_id = "sid" ∧
    isSessionValid 5 0 (execute (fun s => s) 5 0 (fun _ => "sid") ⟨[]⟩ "print(1)" []
        (J0Outcome.err J0Error.connRefused)).2 "sid" = true ∧
    (execute (fun s => s) 5 0 (fun _ => "sid") ⟨[]⟩ "print(1)" []
        (J0Outcome.err J0Error.connRefused)).1.stderr = "Judge0 service unavailable" := by
  obtain ⟨h1, h2, h3⟩ := c6_session_always_minted (fun s => s) 5 0 (fun _ => "sid") ⟨[]⟩
    "print(1)" [] (J0Outcome.err J0Error.connRefused) (by decide)
  refine ⟨h1, ?_, ?_⟩
  · rw [h1] at h2
    exact h2
  · exact ((h3 J0Error.connRefused rfl).2.1).trans (by decide)

/-- C9: the response stdout of a successful round trip is exactly the
decoded backend stdout, prefixed by the one-line substitution notice
precisely when the path rewrite changed the submitted source, and with
no prefix when it left the source unchanged. -/
theorem c9_notice_iff_rewrite (dec : String → String) (exp now : Nat)
    (gen : Nat → String) (st : MemState) (code : String)
    (files : List FileReference) (resp : J0Response) :
    (execute dec exp now gen st code files (J0Outcome.ok resp)).1.stdout
      = (if translateCode code = code then "" else fyiNotice)
        ++ jsDecodeField dec resp.stdout := by
  have hstdout : (execute dec exp now gen st code files (J0Outcome.ok resp)).1.stdout
      = buildStdout dec (pathTest code.toList) resp := rfl
  rw [hstdout]
  unfold buildStdout
  congr 1
  have hiff := translate_fix_iff code.toList
  have hstr : (translateCode code = code)
      ↔ (rewrite2 none (rewrite1 none code.toList) = code.toList) := by
    unfold translateCode
    constructor
    · intro h
      exact congrArg String.data h
    · intro h
      exact congrArg String.mk h
  cases hpt : pathTest code.toList with
  | false =>
    have heq : translateCode code = code := hstr.mpr (hiff.mpr hpt)
    simp [heq]
  | true =>
    have hne : ¬(translateCode code = code) := by
      intro h
      have hfix := hiff.mp (hstr.mp h)
      rw [hpt] at hfix
      exact Bool.noConfusion hfix
    simp [hne]

/-- C3 witness: the frame fact instantiated at a concrete store. -/
theorem c3_payload_ttl_not_refreshed_witness :
    (refreshTTL 10 5 ⟨[], [], []⟩ "s").fileData = [] := by
  exact (c3_payload_ttl_not_refreshed.1 10 5 ⟨[], [], []⟩ "s").trans rfl

/-- C9 witness: rewritten source gets the notice, untouched source does
not, through the identity decoder. -/
theorem c9_notice_iff_rewrite_witness :
    (execute (fun s => s) 5 0 (fun _ => "sid") ⟨[]⟩ "open('/mnt/data/a.csv')" []
        (J0Outcome.ok ⟨some "aGk=", none, some ⟨3, none⟩, none, none, none⟩)).1.stdout
      = fyiNotice ++ "aGk=" ∧
    (execute (fun s => s) 5 0 (fun _ => "sid") ⟨[]⟩ "print(1)" []
        (J0Outcome.ok ⟨some "aGk=", none, some ⟨3, none⟩, none, none, none⟩)).1.stdout
      = "aGk=" := by
  refine ⟨?_, ?_⟩
  · exact (c9_notice_iff_rewrite (fun s => s) 5 0 (fun _ => "sid") ⟨[]⟩
      "open('/mnt/data/a.csv')" []
      ⟨some "aGk=", none, some ⟨3, none⟩, none, none, none⟩).trans (by decide)
  · exact (c9_notice_iff_rewrite (fun s => s) 5 0 (fun _ => "sid") ⟨[]⟩
      "print(1)" [] ⟨some "aGk=", none, some ⟨3, none⟩, none, none, none⟩).trans (by decide)
